import Mathlib

/-
Verification of the display-controller arbitration / config-apply pipeline
(spec.md sections 3-5, 8) and of the display-test utility
(src/system/uapp/display-test/main.cpp).

The controller implementation itself is not part of the source tree (only
its declaration, src/system/dev/display/display/controller.h, is), so the
controller transition system below is modelled from the spec; the constants
that do appear in controller.h (the initial applied stamp UINT32_MAX) are
taken from the header.  The display-test functions are translated directly
from main.cpp.
-/

namespace DisplayCore

/-- Modelled from the spec: one layer of a configuration, a source image
reference plus its metadata (z-order position is the list position;
source/destination rectangles and similar are collapsed into `meta`,
since the pipeline only ever compares images, never metadata).
Spec section 3, "Configuration". -/
structure Layer where
  image : Nat
  meta : Nat
deriving DecidableEq

/-- Modelled from the spec: a per-display configuration held in flight
(either forwarded to hardware and unconfirmed, or deferred in
`delayed_apply`), together with the session that submitted it.
Spec sections 3 and 4.3. -/
structure DeferredConfig where
  owner : Nat
  layers : List Layer
deriving DecidableEq

/-- Modelled from the spec: per-display state.  Mirrors DisplayInfo of
controller.h: `images` (currently shown, ordered by z), `layerCount`,
`pendingLayerChange`, `delayedApply`.  `forwarded` records the layer set
most recently handed to hardware and not yet confirmed by a vsync; the
spec requires this record to decide whether a vsync's handles "match the
layer set most recently forwarded" (section 4.4). -/
structure DisplayState where
  images : List Layer
  layerCount : Nat
  pendingLayerChange : Bool
  forwarded : Option DeferredConfig
  delayedApply : Option DeferredConfig
deriving DecidableEq

/-- Modelled from the spec: the two client roles (section 3), a closed
two-variant choice. -/
inductive Role where
  | vc
  | primary
deriving DecidableEq

/-- Modelled from the spec: the events funnelled through the single
serialization point (sections 4.1-4.4): display hot-plug, ownership flag,
session registration and death, configuration apply, hardware vsync. -/
inductive Event where
  | displaysAdded (ids : List Nat)
  | displaysRemoved (ids : List Nat)
  | setVcOwner (flag : Bool)
  | registerSession (role : Role)
  | sessionDead (sid : Nat)
  | applyConfig (sid : Nat) (stamp : Nat) (cfg : List (Nat × List Layer))
  | vsync (did : Nat) (handles : List Nat)
deriving DecidableEq

/-- Modelled from the spec: observable effects on the hardware collaborator;
`forward did layers` is a PushConfiguration call (section 6). -/
inductive Output where
  | forward (did : Nat) (layers : List Layer)
deriving DecidableEq

/-- Modelled from the spec: the controller state guarded by the single
serialization point.  Mirrors the fields of Controller in controller.h:
the display map, the two client slots, the ownership flag, the cached
active client and the applied stamp.  Sessions are identified by ids drawn
from the fresh counter `nextSid`. -/
structure CState where
  displays : List (Nat × DisplayState)
  vcSession : Option Nat
  primarySession : Option Nat
  vcIsOwner : Bool
  activeClient : Option Nat
  appliedStamp : Nat
  nextSid : Nat
deriving DecidableEq

/-- Modelled from the spec: a newly attached display shows nothing and has
no change in flight (section 4.1). -/
def freshDisplay : DisplayState :=
  { images := [], layerCount := 0, pendingLayerChange := false,
    forwarded := none, delayedApply := none }

/-- Modelled from the spec: the deterministic active-session function of
section 4.2 — the preferred role if connected, else whichever of the two
is actually connected. -/
def computeActive (s : CState) : Option Nat :=
  if s.vcIsOwner then
    match s.vcSession with
    | some a => some a
    | none => s.primarySession
  else
    match s.primarySession with
    | some b => some b
    | none => s.vcSession

/-- Modelled from the spec: Controller::HandleClientOwnershipChanges —
refresh the cached active client from the session slots and the flag. -/
def recomputeActive (s : CState) : CState :=
  { s with activeClient := computeActive s }

/-- Modelled from the spec: the layer-list diff of section 4.3 — a change
is a difference in the image sequence (which subsumes a count change);
pure metadata differences are not a layer change. -/
def layersChanged (l : List Layer) (d : DisplayState) : Bool :=
  decide (l.map Layer.image ≠ d.images.map Layer.image)

/-- Modelled from the spec: the batch entry targeting a given display, if
any (section 4.3 processes a batch per target display). -/
def findCfg (cfg : List (Nat × List Layer)) (did : Nat) : Option (Nat × List Layer) :=
  cfg.find? fun c => c.1 == did

/-- Modelled from the spec: section 4.3's per-display processing of an
accepted configuration, for the display with id `did` and state `d`.
Unchanged layer list: metadata applied in place.  Changed and not
pending: mark pending, forward to hardware, keep the old current list.
Changed and already pending: overwrite `delayedApply`. -/
def applyDisp (sid : Nat) (cfg : List (Nat × List Layer))
    (did : Nat) (d : DisplayState) : DisplayState × Option Output :=
  match findCfg cfg did with
  | none => (d, none)
  | some c =>
    if layersChanged c.2 d then
      if d.pendingLayerChange then
        ({ d with delayedApply := some ⟨sid, c.2⟩ }, none)
      else
        ({ d with pendingLayerChange := true, forwarded := some ⟨sid, c.2⟩ },
         some (Output.forward did c.2))
    else
      ({ d with images := c.2 }, none)

/-- Modelled from the spec: whether a vsync's observed handles equal the
image sequence of the layer set most recently forwarded to hardware and
still unconfirmed (section 4.4). -/
def vsyncMatches (d : DisplayState) (handles : List Nat) : Bool :=
  match d.forwarded with
  | some f => handles == f.layers.map Layer.image
  | none => false

/-- Modelled from the spec: section 4.4's per-display vsync processing,
for the display with id `key`.  On the targeted display with a matching
forwarded set: commit the forwarded layers as current; if a deferred
configuration is present, forward it at once and stay pending, else clear
the pending flag.  Anything else is a late/duplicate notification and is
ignored. -/
def vsyncDisp (did : Nat) (handles : List Nat)
    (key : Nat) (d : DisplayState) : DisplayState × Option Output :=
  if key = did then
    match d.forwarded with
    | some f =>
      if handles = f.layers.map Layer.image then
        match d.delayedApply with
        | some dc =>
          ({ images := f.layers, layerCount := f.layers.length,
             pendingLayerChange := true, forwarded := some dc,
             delayedApply := none },
           some (Output.forward did dc.layers))
        | none =>
          ({ images := f.layers, layerCount := f.layers.length,
             pendingLayerChange := false, forwarded := none,
             delayedApply := none }, none)
      else (d, none)
    | none => (d, none)
  else (d, none)

/-- Modelled from the spec: drop a forwarded-but-unconfirmed layer set
owned by the dying session (the pending half of section 4.2's purge). -/
def purgeForwarded (sid : Nat) (d : DisplayState) : DisplayState :=
  match d.forwarded with
  | some f =>
    if f.owner = sid then
      { d with pendingLayerChange := false, forwarded := none }
    else d
  | none => d

/-- Modelled from the spec: drop a deferred configuration owned by the
dying session (the deferred half of section 4.2's purge). -/
def purgeDelayed (sid : Nat) (d : DisplayState) : DisplayState :=
  match d.delayedApply with
  | some c => if c.owner = sid then { d with delayedApply := none } else d
  | none => d

/-- Modelled from the spec: section 4.2 / 5 — on a session's death every
pending or deferred configuration it owns is purged from every display;
the committed image list is untouched. -/
def purgeDisp (sid : Nat) (_key : Nat) (d : DisplayState) :
    DisplayState × Option Output :=
  (purgeDelayed sid (purgeForwarded sid d), none)

/-- Apply a per-display transformer to every display of the map, keeping
keys, and collect the hardware-forward effects in map order. -/
def mapDisplays (f : Nat → DisplayState → DisplayState × Option Output)
    (l : List (Nat × DisplayState)) :
    List (Nat × DisplayState) × List Output :=
  (l.map fun p => (p.1, (f p.1 p.2).1),
   l.filterMap fun p => (f p.1 p.2).2)

/-- Modelled from the spec: section 4.1 — attach a display if its id is
not yet known (idempotent for known ids). -/
def addDisplay (l : List (Nat × DisplayState)) (id : Nat) :
    List (Nat × DisplayState) :=
  if l.any (fun p => p.1 == id) then l else l ++ [(id, freshDisplay)]

/-- Modelled from the spec: the serialized transition function of the
controller — every entry point of sections 4.1-4.4 funnels into it.  It
returns the successor state and the list of hardware-forward effects. -/
def step (s : CState) (e : Event) : CState × List Output :=
  match e with
  | .displaysAdded ids =>
    ({ s with displays := ids.foldl addDisplay s.displays }, [])
  | .displaysRemoved ids =>
    ({ s with displays := s.displays.filter fun p => ¬ ids.contains p.1 }, [])
  | .setVcOwner flag =>
    (recomputeActive { s with vcIsOwner := flag }, [])
  | .registerSession role =>
    match role with
    | .vc =>
      if s.vcSession.isSome then (s, [])
      else (recomputeActive { s with vcSession := some s.nextSid,
                                     nextSid := s.nextSid + 1 }, [])
    | .primary =>
      if s.primarySession.isSome then (s, [])
      else (recomputeActive { s with primarySession := some s.nextSid,
                                     nextSid := s.nextSid + 1 }, [])
  | .sessionDead sid =>
    (recomputeActive
      { s with
        vcSession := if s.vcSession = some sid then none else s.vcSession,
        primarySession :=
          if s.primarySession = some sid then none else s.primarySession,
        displays := (mapDisplays (purgeDisp sid) s.displays).1 }, [])
  | .applyConfig sid stamp cfg =>
    if s.activeClient = some sid ∧ s.appliedStamp < stamp then
      let r := mapDisplays (applyDisp sid cfg) s.displays
      ({ s with displays := r.1, appliedStamp := stamp }, r.2)
    else (s, [])
  | .vsync did handles =>
    let r := mapDisplays (vsyncDisp did handles) s.displays
    ({ s with displays := r.1 }, r.2)

/-- Modelled from the spec: the initial controller state — no displays, no
sessions, primary preferred (flag false); the applied stamp starts at
UINT32_MAX, the initializer of applied_stamp_ in controller.h line 90. -/
def init : CState :=
  { displays := [], vcSession := none, primarySession := none,
    vcIsOwner := false, activeClient := none,
    appliedStamp := 4294967295, nextSid := 0 }

/-- Run a sequence of serialized events. -/
def run (s : CState) (t : List Event) : CState :=
  t.foldl (fun s e => (step s e).1) s

/-- Run a sequence of serialized events, collecting the hardware-forward
effects in order. -/
def runOut (s : CState) (t : List Event) : CState × List Output :=
  t.foldl (fun acc e =>
    let r := step acc.1 e
    (r.1, acc.2 ++ r.2)) (s, [])

/-- Look a display up by id in a display map. -/
def lookupD (l : List (Nat × DisplayState)) (did : Nat) : Option DisplayState :=
  (l.find? fun p => p.1 == did).map (·.2)

/-- Look a display up by id. -/
def getDisplay (s : CState) (did : Nat) : Option DisplayState :=
  lookupD s.displays did

/-- The display map has no duplicate ids. -/
def KeysNodup (s : CState) : Prop :=
  (s.displays.map Prod.fst).Nodup

/-- Session ids are always drawn below the fresh counter, and the two
role slots never hold the same session. -/
def SessionsOk (s : CState) : Prop :=
  (∀ a, s.vcSession = some a → a < s.nextSid) ∧
  (∀ b, s.primarySession = some b → b < s.nextSid) ∧
  (∀ a b, s.vcSession = some a → s.primarySession = some b → a ≠ b)

/-- The cached active client always equals the deterministic
recomputation from the session slots and the ownership flag, hence is
never independent state. -/
def ActiveOk (s : CState) : Prop :=
  s.activeClient = computeActive s

/-- The pending flag of every display is set exactly while a forwarded
layer set is awaiting its confirming vsync. -/
def PendingOk (s : CState) : Prop :=
  ∀ p ∈ s.displays, p.2.pendingLayerChange = p.2.forwarded.isSome

/-- The inductive invariant of the controller machine. -/
def Inv (s : CState) : Prop :=
  KeysNodup s ∧ SessionsOk s ∧ ActiveOk s ∧ PendingOk s

/-- No display holds a forwarded or deferred configuration owned by
`sid`. -/
def NotOwned (sid : Nat) (s : CState) : Prop :=
  ∀ p ∈ s.displays,
    (∀ f, p.2.forwarded = some f → f.owner ≠ sid) ∧
    (∀ c, p.2.delayedApply = some c → c.owner ≠ sid)

/-- After `sid`'s death: the id is stale (below the fresh counter), no
role slot holds it, the active client is not it, and it owns nothing on
any display. -/
def Purged (sid : Nat) (s : CState) : Prop :=
  sid < s.nextSid ∧ s.vcSession ≠ some sid ∧ s.primarySession ≠ some sid ∧
  s.activeClient ≠ some sid ∧ NotOwned sid s

/-- The virtual-console session is the active one. -/
def ActiveIsVc (s : CState) : Prop :=
  s.activeClient.isSome = true ∧ s.activeClient = s.vcSession

/-- The primary session is the active one. -/
def ActiveIsPrimary (s : CState) : Prop :=
  s.activeClient.isSome = true ∧ s.activeClient = s.primarySession

/-- Exactly one of the two sessions is active. -/
def ExactlyOneActive (s : CState) : Prop :=
  (ActiveIsVc s ∧ ¬ ActiveIsPrimary s) ∨
  (ActiveIsPrimary s ∧ ¬ ActiveIsVc s)

instance (s : CState) : Decidable (ActiveIsVc s) :=
  inferInstanceAs
    (Decidable (s.activeClient.isSome = true ∧ s.activeClient = s.vcSession))

instance (s : CState) : Decidable (ActiveIsPrimary s) :=
  inferInstanceAs
    (Decidable (s.activeClient.isSome = true ∧ s.activeClient = s.primarySession))

instance (s : CState) : Decidable (ExactlyOneActive s) :=
  inferInstanceAs (Decidable (_ ∧ _ ∨ _ ∧ _))

/-- History function for the deferred-apply slot of display `did`: the
most recent configuration submitted for that display by an accepted
ApplyConfig while the display's layer change was still pending (the claim
of spec section 3, invariant 5).  It is written from the spec's words and
never cleared, only superseded, so the state's slot can be compared
against it. -/
def deferHist (did : Nat) (s : CState) (e : Event)
    (g : Option DeferredConfig) : Option DeferredConfig :=
  match e with
  | .applyConfig sid stamp cfg =>
    if s.activeClient = some sid ∧ s.appliedStamp < stamp then
      match getDisplay s did, findCfg cfg did with
      | some d, some c =>
        if layersChanged c.2 d ∧ d.pendingLayerChange then some ⟨sid, c.2⟩
        else g
      | _, _ => g
    else g
  | _ => g

/-- Run the machine while tracking the deferred-apply history of display
`did`. -/
def runHist (did : Nat) (s : CState) (g : Option DeferredConfig)
    (t : List Event) : CState × Option DeferredConfig :=
  t.foldl (fun acc e => ((step acc.1 e).1, deferHist did acc.1 e acc.2)) (s, g)

/-- A short trace exercising the machine: attach display 1, register the
primary session (id 0, active), and submit a layer-changing configuration
with stamp 2^32, which exceeds the initial applied stamp UINT32_MAX and so
is accepted and forwarded. -/
def pendingTrace : List Event :=
  [Event.displaysAdded [1], Event.registerSession Role.primary,
   Event.applyConfig 0 4294967296 [(1, [⟨7, 0⟩])]]

/-- The state of display 1 after pendingTrace: layer set [7] forwarded
and awaiting its vsync. -/
def pendingDisp : DisplayState :=
  { images := [], layerCount := 0, pendingLayerChange := true,
    forwarded := some ⟨0, [⟨7, 0⟩]⟩, delayedApply := none }

/-- pendingTrace followed by a second layer-changing apply (stamp 2^32+1,
layers [8]) while display 1 is still pending, which is deferred. -/
def deferTrace : List Event :=
  pendingTrace ++ [Event.applyConfig 0 4294967297 [(1, [⟨8, 0⟩])]]

/-- The state of display 1 after deferTrace: [7] still in flight, [8]
deferred. -/
def deferDisp : DisplayState :=
  { images := [], layerCount := 0, pendingLayerChange := true,
    forwarded := some ⟨0, [⟨7, 0⟩]⟩, delayedApply := some ⟨0, [⟨8, 0⟩]⟩ }

/-- deferTrace followed by a third layer-changing apply (stamp 2^32+2,
layers [9]) while display 1 is still pending — it supersedes the deferred
[8] — and then the two confirming vsyncs. -/
def supersedeTrace : List Event :=
  deferTrace ++ [Event.applyConfig 0 4294967298 [(1, [⟨9, 0⟩])],
                 Event.vsync 1 [7], Event.vsync 1 [9]]

end DisplayCore

namespace DisplayTest

/-- The invalid id sentinel: 0, per the comment in find_display
(main.cpp line 84, "0 is the invalid id"). -/
def INVALID_ID : Nat := 0

/-- The layer-change scan of update_display_layers (main.cpp lines
105-113): a size mismatch, or otherwise any positionally differing
element. -/
def listsDiffer (a b : List Nat) : Bool :=
  decide (a.length ≠ b.length) || (a.zip b).any fun p => decide (p.1 ≠ p.2)

/-- The SetDisplayLayers request written to the channel (main.cpp lines
118-135): the target display and the layer id list. -/
structure SetLayersMsg where
  display_id : Nat
  layer_ids : List Nat
deriving DecidableEq

/-- update_display_layers (main.cpp lines 94-141).  `ids` holds
layer.id(display.id()) for each virtual layer in order; entries equal to
INVALID_ID are skipped.  Returns the new value of *current_layers and the
message written to the channel, if any. -/
def update_display_layers (displayId : Nat) (ids : List Nat)
    (current_layers : List Nat) : List Nat × Option SetLayersMsg :=
  let new_layers := ids.filter fun i => i != INVALID_ID
  if listsDiffer new_layers current_layers then
    (new_layers, some ⟨displayId, new_layers⟩)
  else
    (current_layers, none)

/-- find_display (main.cpp lines 82-92).  `displays` holds the connected
display ids in order; `id` is the strtoul result of the argument (0 on
parse failure).  Returns the matching display (the non-null pointer) or
none (nullptr). -/
def find_display (displays : List Nat) (id : Nat) : Option Nat :=
  if id ≠ 0 then displays.find? (fun d => d == id) else none

/-- What the --mode-set / --format-set branch of main does after calling
find_display: reject with "Invalid display", or go on to dereference the
pointer (main.cpp lines 216-231). -/
inductive ModeSetStep where
  | rejected
  | derefDisplay (d : Option Nat)
deriving DecidableEq

/-- The guard of main.cpp lines 216-220, translated as written: when
find_display returns non-null the branch prints "Invalid display" and
returns -1; otherwise control falls through to display->set_mode_idx /
display->set_format_idx, dereferencing the pointer it holds. -/
def mode_set_guard (displays : List Nat) (id : Nat) : ModeSetStep :=
  let display := find_display displays id
  if display.isSome then ModeSetStep.rejected
  else ModeSetStep.derefDisplay display

end DisplayTest

namespace DisplayCore

theorem run_single (s : CState) (e : Event) : run s [e] = (step s e).1 :=
  rfl

theorem run_append (s : CState) (t1 t2 : List Event) :
    run s (t1 ++ t2) = run (run s t1) t2 :=
  List.foldl_append _ _ _ _

theorem step_appliedStamp_le (s : CState) (e : Event) :
    s.appliedStamp ≤ ((step s e).1).appliedStamp := by
  cases e with
  | displaysAdded ids => exact Nat.le_refl _
  | displaysRemoved ids => exact Nat.le_refl _
  | setVcOwner flag => exact Nat.le_refl _
  | registerSession role =>
    cases role <;> simp only [step] <;> split <;> exact Nat.le_refl _
  | sessionDead sid => exact Nat.le_refl _
  | applyConfig sid stamp cfg =>
    simp only [step]
    split
    · rename_i h
      exact Nat.le_of_lt h.2
    · exact Nat.le_refl _
  | vsync did handles => exact Nat.le_refl _

theorem step_apply_rejected (s : CState) (sid stamp : Nat)
    (cfg : List (Nat × List Layer))
    (h : ¬(s.activeClient = some sid ∧ s.appliedStamp < stamp)) :
    step s (Event.applyConfig sid stamp cfg) = (s, []) := by
  simp only [step]
  rw [if_neg h]

/-- C1: along every event sequence from the initial state — in which the
applied stamp is UINT32_MAX, per controller.h — the applied stamp never
decreases, and an ApplyConfig whose stamp is at most the current applied
stamp leaves the whole controller state (in particular every display's
images, layer count, pending flag and deferred slot) unchanged. -/
theorem applied_stamp_monotone_and_stale_apply_inert :
    init.appliedStamp = 4294967295 ∧
    (∀ t e, (run init t).appliedStamp ≤ (run init (t ++ [e])).appliedStamp) ∧
    (∀ t sid stamp cfg, stamp ≤ (run init t).appliedStamp →
      run init (t ++ [Event.applyConfig sid stamp cfg]) = run init t) := by
  refine ⟨rfl, ?_, ?_⟩
  · intro t e
    rw [run_append, run_single]
    exact step_appliedStamp_le _ _
  · intro t sid stamp cfg h
    rw [run_append, run_single, step_apply_rejected]
    rintro ⟨-, h2⟩
    exact absurd h (Nat.not_le.mpr h2)

/-- Witness for C1: a stale stamp (5 ≤ UINT32_MAX) is rejected without
touching the state. -/
theorem applied_stamp_monotone_witness :
    5 ≤ (run init []).appliedStamp ∧
    run init ([] ++ [Event.applyConfig 0 5 []]) = run init [] :=
  ⟨by decide,
   applied_stamp_monotone_and_stale_apply_inert.2.2 [] 0 5 [] (by decide)⟩

/-- C6: an ApplyConfig from a session that is not the active client is
dropped silently — the state (displays and applied stamp included) is
unchanged and no effect, in particular no error, is emitted. -/
theorem nonactive_apply_rejected_silently (s : CState) (sid stamp : Nat)
    (cfg : List (Nat × List Layer)) (h : s.activeClient ≠ some sid) :
    step s (Event.applyConfig sid stamp cfg) = (s, []) := by
  apply step_apply_rejected
  rintro ⟨h1, -⟩
  exact h h1

/-- Witness for C6: no session is active initially, so session 3's apply
with a huge stamp still changes nothing and emits nothing. -/
theorem nonactive_apply_rejected_witness :
    init.activeClient ≠ some 3 ∧
    step init (Event.applyConfig 3 9999999999 [(1, [⟨5, 0⟩])]) = (init, []) :=
  ⟨by decide,
   nonactive_apply_rejected_silently init 3 9999999999 [(1, [⟨5, 0⟩])]
     (by decide)⟩

end DisplayCore

namespace DisplayTest

theorem listsDiffer_eq_true_iff (a b : List Nat) :
    listsDiffer a b = true ↔ a ≠ b := by
  induction a generalizing b with
  | nil =>
    cases b with
    | nil => simp [listsDiffer]
    | cons y ys => simp [listsDiffer]
  | cons x xs ih =>
    cases b with
    | nil => simp [listsDiffer]
    | cons y ys =>
      have h := ih ys
      simp only [listsDiffer, List.length_cons, List.zip_cons_cons,
        List.any_cons, Bool.or_eq_true, decide_eq_true_eq, ne_eq,
        Nat.succ_ne_succ] at h ⊢
      simp only [List.cons.injEq, not_and]
      constructor
      · rintro (hlen | hxy | hany)
        · intro _ hxy2
          exact (h.mp (Or.inl hlen)) hxy2
        · intro hxy2
          exact absurd hxy2 hxy
        · intro _ hxy2
          exact (h.mp (Or.inr hany)) hxy2
      · intro hne
        by_cases hxy : x = y
        · rcases h.mpr (hne hxy) with hlen | hany
          · exact Or.inl hlen
          · exact Or.inr (Or.inr hany)
        · exact Or.inr (Or.inl hxy)

theorem update_display_layers_eq (did : Nat) (ids cur : List Nat) :
    update_display_layers did ids cur =
      if listsDiffer (ids.filter fun i => i != INVALID_ID) cur then
        (ids.filter fun i => i != INVALID_ID,
         some ⟨did, ids.filter fun i => i != INVALID_ID⟩)
      else (cur, none) :=
  rfl

/-- C9: update_display_layers computes the valid layer ids in order
(skipping INVALID_ID entries); it writes a SetDisplayLayers message if
and only if that list differs from *current_layers in length or at some
position, in which case *current_layers is replaced by the new list;
otherwise nothing is written and *current_layers is untouched. -/
theorem update_display_layers_writes_iff_changed (did : Nat)
    (ids cur : List Nat) :
    ((update_display_layers did ids cur).2.isSome = true ↔
      ids.filter (fun i => i != INVALID_ID) ≠ cur) ∧
    (ids.filter (fun i => i != INVALID_ID) ≠ cur →
      update_display_layers did ids cur =
        (ids.filter (fun i => i != INVALID_ID),
         some ⟨did, ids.filter (fun i => i != INVALID_ID)⟩)) ∧
    (ids.filter (fun i => i != INVALID_ID) = cur →
      update_display_layers did ids cur = (cur, none)) := by
  rw [update_display_layers_eq]
  by_cases h : ids.filter (fun i => i != INVALID_ID) = cur
  · have hL : ¬ (listsDiffer (ids.filter fun i => i != INVALID_ID) cur = true) :=
      fun hT => (listsDiffer_eq_true_iff _ _).mp hT h
    rw [if_neg hL]
    exact ⟨by simp [h], fun hc => absurd h hc, fun _ => rfl⟩
  · have hT : listsDiffer (ids.filter fun i => i != INVALID_ID) cur = true :=
      (listsDiffer_eq_true_iff _ _).mpr h
    rw [if_pos hT]
    exact ⟨by simp [h], fun _ => rfl, fun hc => absurd hc h⟩

/-- Witness for C9: layers [0, 5] against current [] — the 0 entry is
skipped, [5] differs from [], so the message is written and the current
list replaced. -/
theorem update_display_layers_witness :
    ([0, 5].filter (fun i => i != INVALID_ID) ≠ ([] : List Nat)) ∧
    update_display_layers 1 [0, 5] [] = ([5], some ⟨1, [5]⟩) :=
  ⟨by decide,
   (update_display_layers_writes_iff_changed 1 [0, 5] []).2.1 (by decide)⟩

/-- C10 (code bug): in the --mode-set / --format-set branch of main, the
null check is inverted — when find_display returns null (an id naming no
connected display) control falls through to the dereference of the null
pointer, and when it returns a valid display the branch instead prints
"Invalid display" and exits. -/
theorem mode_set_reaches_null_deref :
    find_display [1] 2 = none ∧
    mode_set_guard [1] 2 = ModeSetStep.derefDisplay none ∧
    (find_display [1] 1).isSome = true ∧
    mode_set_guard [1] 1 = ModeSetStep.rejected := by
  decide

end DisplayTest

namespace DisplayCore

theorem mapDisplays_fst (f : Nat → DisplayState → DisplayState × Option Output)
    (l : List (Nat × DisplayState)) :
    (mapDisplays f l).1 = l.map fun p => (p.1, (f p.1 p.2).1) :=
  rfl

theorem mapDisplays_snd (f : Nat → DisplayState → DisplayState × Option Output)
    (l : List (Nat × DisplayState)) :
    (mapDisplays f l).2 = l.filterMap fun p => (f p.1 p.2).2 :=
  rfl

theorem mapDisplays_keys (f : Nat → DisplayState → DisplayState × Option Output)
    (l : List (Nat × DisplayState)) :
    ((mapDisplays f l).1).map Prod.fst = l.map Prod.fst := by
  rw [mapDisplays_fst, List.map_map]
  rfl

theorem find?_map_keyed (g : Nat × DisplayState → Nat × DisplayState)
    (hg : ∀ p, (g p).1 = p.1) (did : Nat) :
    ∀ l : List (Nat × DisplayState),
      (l.map g).find? (fun p => p.1 == did) =
        (l.find? fun p => p.1 == did).map g
  | [] => rfl
  | p :: l => by
    simp only [List.map_cons, List.find?_cons, hg p]
    cases hpd : (p.1 == did) with
    | false => exact find?_map_keyed g hg did l
    | true => rfl

theorem lookupD_mapDisplays (f : Nat → DisplayState → DisplayState × Option Output)
    (l : List (Nat × DisplayState)) (did : Nat) :
    lookupD (mapDisplays f l).1 did = (lookupD l did).map fun d => (f did d).1 := by
  unfold lookupD
  rw [mapDisplays_fst,
    find?_map_keyed (fun p => (p.1, (f p.1 p.2).1)) (fun _ => rfl) did]
  cases hf : l.find? (fun p => p.1 == did) with
  | none => rfl
  | some p =>
    have hkey : (p.1 == did) = true := by
      have h := List.find?_some hf
      simpa using h
    have hp1 : p.1 = did := by simpa using hkey
    simp [hp1]

theorem mapDisplays_eq_self (f : Nat → DisplayState → DisplayState × Option Output) :
    ∀ l : List (Nat × DisplayState),
      (∀ p ∈ l, f p.1 p.2 = (p.2, none)) → mapDisplays f l = (l, [])
  | [], _ => rfl
  | p :: l, h => by
    have hp := h p (List.mem_cons_self p l)
    have ih := mapDisplays_eq_self f l fun q hq => h q (List.mem_cons_of_mem p hq)
    have ih1 := congrArg Prod.fst ih
    have ih2 := congrArg Prod.snd ih
    rw [mapDisplays_fst] at ih1
    rw [mapDisplays_snd] at ih2
    unfold mapDisplays
    simp only [List.map_cons, List.filterMap_cons, hp]
    simp [ih1, ih2]

theorem mem_mapDisplays {f : Nat → DisplayState → DisplayState × Option Output}
    {l : List (Nat × DisplayState)} {q : Nat × DisplayState}
    (hq : q ∈ (mapDisplays f l).1) :
    ∃ p ∈ l, q = (p.1, (f p.1 p.2).1) := by
  rw [mapDisplays_fst] at hq
  obtain ⟨p, hp, rfl⟩ := List.mem_map.mp hq
  exact ⟨p, hp, rfl⟩

theorem find?_eq_of_mem_nodup :
    ∀ l : List (Nat × DisplayState), (l.map Prod.fst).Nodup →
      ∀ p ∈ l, (l.find? fun q => q.1 == p.1) = some p
  | [], _, p, hp => absurd hp (List.not_mem_nil p)
  | q :: l, hnd, p, hp => by
    rw [List.map_cons, List.nodup_cons] at hnd
    rcases List.mem_cons.mp hp with rfl | hpl
    · simp [List.find?_cons]
    · have hq1 : (q.1 == p.1) = false := by
        refine beq_eq_false_iff_ne.mpr ?_
        intro he
        exact hnd.1 (he ▸ List.mem_map_of_mem Prod.fst hpl)
      rw [List.find?_cons, hq1]
      exact find?_eq_of_mem_nodup l hnd.2 p hpl

theorem lookupD_eq_of_mem_nodup {l : List (Nat × DisplayState)}
    (hnd : (l.map Prod.fst).Nodup) {p : Nat × DisplayState} (hp : p ∈ l) :
    lookupD l p.1 = some p.2 := by
  unfold lookupD
  rw [find?_eq_of_mem_nodup l hnd p hp]
  rfl

theorem applyDisp_cases (sid : Nat) (cfg : List (Nat × List Layer))
    (did : Nat) (d : DisplayState) :
    (∃ c, findCfg cfg did = some c ∧ layersChanged c.2 d = true ∧
      d.pendingLayerChange = true ∧
      applyDisp sid cfg did d = ({ d with delayedApply := some ⟨sid, c.2⟩ }, none)) ∨
    (∃ c, findCfg cfg did = some c ∧ layersChanged c.2 d = true ∧
      d.pendingLayerChange = false ∧
      applyDisp sid cfg did d =
        ({ d with pendingLayerChange := true, forwarded := some ⟨sid, c.2⟩ },
         some (Output.forward did c.2))) ∨
    (∃ c, findCfg cfg did = some c ∧ layersChanged c.2 d = false ∧
      applyDisp sid cfg did d = ({ d with images := c.2 }, none)) ∨
    (findCfg cfg did = none ∧ applyDisp sid cfg did d = (d, none)) := by
  unfold applyDisp
  cases hc : findCfg cfg did with
  | none => exact Or.inr (Or.inr (Or.inr ⟨rfl, rfl⟩))
  | some c =>
    cases hch : layersChanged c.2 d with
    | false =>
      refine Or.inr (Or.inr (Or.inl ⟨c, rfl, hch, ?_⟩))
      simp [hch]
    | true =>
      cases hp : d.pendingLayerChange with
      | true =>
        refine Or.inl ⟨c, rfl, hch, rfl, ?_⟩
        simp [hch, hp]
      | false =>
        refine Or.inr (Or.inl ⟨c, rfl, hch, rfl, ?_⟩)
        simp [hch, hp]

theorem vsyncDisp_cases (did : Nat) (handles : List Nat)
    (key : Nat) (d : DisplayState) :
    (key ≠ did ∧ vsyncDisp did handles key d = (d, none)) ∨
    (key = did ∧ d.forwarded = none ∧ vsyncDisp did handles key d = (d, none)) ∨
    (∃ f, key = did ∧ d.forwarded = some f ∧
      handles ≠ f.layers.map Layer.image ∧
      vsyncDisp did handles key d = (d, none)) ∨
    (∃ f dc, key = did ∧ d.forwarded = some f ∧
      handles = f.layers.map Layer.image ∧ d.delayedApply = some dc ∧
      vsyncDisp did handles key d =
        ({ images := f.layers, layerCount := f.layers.length,
           pendingLayerChange := true, forwarded := some dc,
           delayedApply := none },
         some (Output.forward did dc.layers))) ∨
    (∃ f, key = did ∧ d.forwarded = some f ∧
      handles = f.layers.map Layer.image ∧ d.delayedApply = none ∧
      vsyncDisp did handles key d =
        ({ images := f.layers, layerCount := f.layers.length,
           pendingLayerChange := false, forwarded := none,
           delayedApply := none }, none)) := by
  unfold vsyncDisp
  by_cases hk : key = did
  · cases hf : d.forwarded with
    | none =>
      refine Or.inr (Or.inl ⟨hk, rfl, ?_⟩)
      simp [hk]
    | some f =>
      by_cases hh : handles = f.layers.map Layer.image
      · cases hd : d.delayedApply with
        | some dc =>
          refine Or.inr (Or.inr (Or.inr (Or.inl ⟨f, dc, hk, rfl, hh, rfl, ?_⟩)))
          simp [hk, hh]
        | none =>
          refine Or.inr (Or.inr (Or.inr (Or.inr ⟨f, hk, rfl, hh, rfl, ?_⟩)))
          simp [hk, hh]
      · refine Or.inr (Or.inr (Or.inl ⟨f, hk, rfl, hh, ?_⟩))
        simp [hk, hh]
  · refine Or.inl ⟨hk, ?_⟩
    simp [hk]

theorem purgeForwarded_images (sid : Nat) (d : DisplayState) :
    (purgeForwarded sid d).images = d.images := by
  unfold purgeForwarded
  split
  · split <;> rfl
  · rfl

theorem purgeForwarded_delayed (sid : Nat) (d : DisplayState) :
    (purgeForwarded sid d).delayedApply = d.delayedApply := by
  unfold purgeForwarded
  split
  · split <;> rfl
  · rfl

theorem purgeForwarded_spec (sid : Nat) (d : DisplayState) :
    ∀ f, (purgeForwarded sid d).forwarded = some f →
      d.forwarded = some f ∧ f.owner ≠ sid := by
  unfold purgeForwarded
  split
  · rename_i f hf
    split
    · intro f2 h2
      cases h2
    · rename_i hO
      intro f2 h2
      refine ⟨h2, ?_⟩
      rw [hf] at h2
      cases h2
      exact hO
  · rename_i hf
    intro f2 h2
    rw [hf] at h2
    cases h2

theorem purgeForwarded_pending (sid : Nat) (d : DisplayState)
    (hd : d.pendingLayerChange = d.forwarded.isSome) :
    (purgeForwarded sid d).pendingLayerChange =
      (purgeForwarded sid d).forwarded.isSome := by
  unfold purgeForwarded
  split
  · split
    · rfl
    · exact hd
  · exact hd

theorem purgeDelayed_images (sid : Nat) (d : DisplayState) :
    (purgeDelayed sid d).images = d.images := by
  unfold purgeDelayed
  split
  · split <;> rfl
  · rfl

theorem purgeDelayed_pending (sid : Nat) (d : DisplayState) :
    (purgeDelayed sid d).pendingLayerChange = d.pendingLayerChange := by
  unfold purgeDelayed
  split
  · split <;> rfl
  · rfl

theorem purgeDelayed_forwarded (sid : Nat) (d : DisplayState) :
    (purgeDelayed sid d).forwarded = d.forwarded := by
  unfold purgeDelayed
  split
  · split <;> rfl
  · rfl

theorem keys_addDisplay (l : List (Nat × DisplayState)) (id : Nat)
    (h : (l.map Prod.fst).Nodup) : ((addDisplay l id).map Prod.fst).Nodup := by
  unfold addDisplay
  split
  · exact h
  · rename_i hany
    rw [List.map_append]
    refine List.Nodup.append h (List.nodup_singleton id) ?_
    intro a ha hb
    rw [List.map_singleton, List.mem_singleton] at hb
    subst hb
    obtain ⟨p, hp, hpa⟩ := List.mem_map.mp ha
    exact hany (List.any_eq_true.mpr ⟨p, hp, by simp [hpa]⟩)

theorem keys_foldl_addDisplay :
    ∀ (ids : List Nat) (l : List (Nat × DisplayState)),
      (l.map Prod.fst).Nodup → ((ids.foldl addDisplay l).map Prod.fst).Nodup
  | [], _, h => h
  | id :: ids, l, h =>
    keys_foldl_addDisplay ids (addDisplay l id) (keys_addDisplay l id h)

theorem mem_foldl_addDisplay :
    ∀ (ids : List Nat) (l : List (Nat × DisplayState)) (p : Nat × DisplayState),
      p ∈ ids.foldl addDisplay l → p ∈ l ∨ p.2 = freshDisplay
  | [], _, _, hp => Or.inl hp
  | id :: ids, l, p, hp => by
    rcases mem_foldl_addDisplay ids (addDisplay l id) p hp with h | h
    · unfold addDisplay at h
      split at h
      · exact Or.inl h
      · rcases List.mem_append.mp h with h | h
        · exact Or.inl h
        · rw [List.mem_singleton] at h
          subst h
          exact Or.inr rfl
    · exact Or.inr h

theorem lookupD_addDisplay (l : List (Nat × DisplayState)) (id did : Nat) :
    lookupD (addDisplay l id) did = lookupD l did ∨
    (lookupD l did = none ∧ lookupD (addDisplay l id) did = some freshDisplay) ∨
    (lookupD l did = none ∧ lookupD (addDisplay l id) did = none) := by
  unfold addDisplay
  split
  · exact Or.inl rfl
  · unfold lookupD
    rw [List.find?_append]
    cases hf : l.find? fun p => p.1 == did with
    | some p => exact Or.inl (by simp)
    | none =>
      by_cases hid : (id == did) = true
      · refine Or.inr (Or.inl ⟨rfl, ?_⟩)
        simp [List.find?, hid]
      · refine Or.inr (Or.inr ⟨rfl, ?_⟩)
        have hb : (id == did) = false := by simpa using hid
        simp [List.find?, hb]

theorem lookupD_foldl_addDisplay (did : Nat) :
    ∀ (ids : List Nat) (l : List (Nat × DisplayState)),
      lookupD (ids.foldl addDisplay l) did = lookupD l did ∨
      lookupD (ids.foldl addDisplay l) did = some freshDisplay ∨
      lookupD (ids.foldl addDisplay l) did = none
  | [], _ => Or.inl rfl
  | id :: ids, l => by
    rw [List.foldl_cons]
    rcases lookupD_foldl_addDisplay did ids (addDisplay l id) with h | h | h
    · rw [h]
      rcases lookupD_addDisplay l id did with h2 | ⟨_, h2⟩ | ⟨_, h2⟩
      · exact Or.inl h2
      · exact Or.inr (Or.inl h2)
      · exact Or.inr (Or.inr h2)
    · exact Or.inr (Or.inl h)
    · exact Or.inr (Or.inr h)

theorem lookupD_filter (l : List (Nat × DisplayState)) (q : Nat × DisplayState → Bool)
    (hnd : (l.map Prod.fst).Nodup) (did : Nat) (d : DisplayState)
    (h : lookupD (l.filter q) did = some d) : lookupD l did = some d := by
  unfold lookupD at h
  cases hf : (l.filter q).find? fun p => p.1 == did with
  | none => rw [hf] at h; cases h
  | some p =>
    rw [hf] at h
    cases h
    have hpm : p ∈ l.filter q := List.mem_of_find?_eq_some hf
    have hpl : p ∈ l := List.mem_of_mem_filter hpm
    have hp1 : p.1 = did := by simpa using List.find?_some hf
    rw [← hp1]
    exact lookupD_eq_of_mem_nodup hnd hpl

theorem computeActive_ne (s : CState) (x : Nat) (h1 : s.vcSession ≠ some x)
    (h2 : s.primarySession ≠ some x) : computeActive s ≠ some x := by
  unfold computeActive
  by_cases ho : s.vcIsOwner = true
  · rw [if_pos ho]
    cases hv : s.vcSession with
    | some a => rw [hv] at h1; simpa using h1
    | none => exact h2
  · rw [if_neg ho]
    cases hp : s.primarySession with
    | some b => rw [hp] at h2; simpa using h2
    | none => exact h1

theorem computeActive_mem (s : CState) (x : Nat)
    (h : computeActive s = some x) :
    s.vcSession = some x ∨ s.primarySession = some x := by
  unfold computeActive at h
  by_cases ho : s.vcIsOwner = true
  · rw [if_pos ho] at h
    cases hv : s.vcSession with
    | some a => rw [hv] at h; exact Or.inl h
    | none => rw [hv] at h; exact Or.inr h
  · rw [if_neg ho] at h
    cases hp : s.primarySession with
    | some b => rw [hp] at h; exact Or.inr h
    | none => rw [hp] at h; exact Or.inl h

theorem purgeDelayed_spec (sid : Nat) (d : DisplayState) :
    ∀ c, (purgeDelayed sid d).delayedApply = some c →
      d.delayedApply = some c ∧ c.owner ≠ sid := by
  unfold purgeDelayed
  split
  · rename_i c hc
    split
    · intro c2 h2
      cases h2
    · rename_i hO
      intro c2 h2
      refine ⟨h2, ?_⟩
      rw [hc] at h2
      cases h2
      exact hO
  · rename_i hc
    intro c2 h2
    rw [hc] at h2
    cases h2

theorem inv_init : Inv init := by
  refine ⟨?_, ⟨?_, ?_, ?_⟩, rfl, ?_⟩
  · exact List.nodup_nil
  · intro a ha
    cases ha
  · intro b hb
    cases hb
  · intro a b ha _
    cases ha
  · intro p hp
    cases hp

theorem inv_step (s : CState) (e : Event) (h : Inv s) : Inv (step s e).1 := by
  obtain ⟨hK, hS, hA, hP⟩ := h
  cases e with
  | displaysAdded ids =>
    refine ⟨keys_foldl_addDisplay ids s.displays hK, hS, hA, ?_⟩
    intro p hp
    rcases mem_foldl_addDisplay ids s.displays p hp with hm | hm
    · exact hP p hm
    · rw [hm]
      rfl
  | displaysRemoved ids =>
    refine ⟨?_, hS, hA, ?_⟩
    · exact List.Nodup.sublist
        (List.Sublist.map Prod.fst (List.filter_sublist _)) hK
    · intro p hp
      exact hP p (List.mem_of_mem_filter hp)
  | setVcOwner flag =>
    exact ⟨hK, hS, rfl, hP⟩
  | registerSession role =>
    cases role with
    | vc =>
      simp only [step]
      split
      · exact ⟨hK, hS, hA, hP⟩
      · refine ⟨hK, ⟨?_, ?_, ?_⟩, rfl, hP⟩
        · intro a ha
          cases ha
          exact Nat.lt_succ_self _
        · intro b hb
          exact Nat.lt_succ_of_lt (hS.2.1 b hb)
        · intro a b ha hb
          cases ha
          have hb2 := hS.2.1 b hb
          intro he
          rw [← he] at hb2
          exact Nat.lt_irrefl _ hb2
    | primary =>
      simp only [step]
      split
      · exact ⟨hK, hS, hA, hP⟩
      · refine ⟨hK, ⟨?_, ?_, ?_⟩, rfl, hP⟩
        · intro a ha
          exact Nat.lt_succ_of_lt (hS.1 a ha)
        · intro b hb
          cases hb
          exact Nat.lt_succ_self _
        · intro a b ha hb
          cases hb
          have ha2 := hS.1 a ha
          intro he
          rw [he] at ha2
          exact Nat.lt_irrefl _ ha2
  | sessionDead sid =>
    dsimp only [step, recomputeActive]
    refine ⟨?_, ⟨?_, ?_, ?_⟩, rfl, ?_⟩
    · unfold KeysNodup
      dsimp only
      rw [mapDisplays_keys]
      exact hK
    · intro a ha
      by_cases hv : s.vcSession = some sid
      · rw [if_pos hv] at ha
        cases ha
      · rw [if_neg hv] at ha
        exact hS.1 a ha
    · intro b hb
      by_cases hq : s.primarySession = some sid
      · rw [if_pos hq] at hb
        cases hb
      · rw [if_neg hq] at hb
        exact hS.2.1 b hb
    · intro a b ha hb
      by_cases hv : s.vcSession = some sid
      · rw [if_pos hv] at ha
        cases ha
      · rw [if_neg hv] at ha
        by_cases hq : s.primarySession = some sid
        · rw [if_pos hq] at hb
          cases hb
        · rw [if_neg hq] at hb
          exact hS.2.2 a b ha hb
    · intro p hp
      obtain ⟨q, hq, rfl⟩ := mem_mapDisplays hp
      have h1 := purgeForwarded_pending sid q.2 (hP q hq)
      show (purgeDelayed sid (purgeForwarded sid q.2)).pendingLayerChange =
        (purgeDelayed sid (purgeForwarded sid q.2)).forwarded.isSome
      rw [purgeDelayed_pending, purgeDelayed_forwarded]
      exact h1
  | applyConfig sid stamp cfg =>
    simp only [step]
    split
    · refine ⟨?_, hS, hA, ?_⟩
      · unfold KeysNodup
        rw [mapDisplays_keys]
        exact hK
      · intro p hp
        obtain ⟨q, hq, rfl⟩ := mem_mapDisplays hp
        rcases applyDisp_cases sid cfg q.1 q.2 with
          ⟨c, _, _, _, he⟩ | ⟨c, _, _, _, he⟩ | ⟨c, _, _, he⟩ | ⟨_, he⟩
        · rw [he]
          exact hP q hq
        · rw [he]
          rfl
        · rw [he]
          exact hP q hq
        · rw [he]
          exact hP q hq
    · exact ⟨hK, hS, hA, hP⟩
  | vsync did handles =>
    dsimp only [step]
    refine ⟨?_, hS, hA, ?_⟩
    · unfold KeysNodup
      dsimp only
      rw [mapDisplays_keys]
      exact hK
    · intro p hp
      obtain ⟨q, hq, rfl⟩ := mem_mapDisplays hp
      rcases vsyncDisp_cases did handles q.1 q.2 with
        ⟨_, he⟩ | ⟨_, _, he⟩ | ⟨f, _, _, _, he⟩ |
        ⟨f, dc, _, _, _, _, he⟩ | ⟨f, _, _, _, _, he⟩
      · rw [he]
        exact hP q hq
      · rw [he]
        exact hP q hq
      · rw [he]
        exact hP q hq
      · rw [he]
        rfl
      · rw [he]
        rfl

theorem inv_run_from (t : List Event) :
    ∀ s : CState, Inv s → Inv (run s t) := by
  induction t with
  | nil => exact fun s h => h
  | cons e t ih => exact fun s h => ih (step s e).1 (inv_step s e h)

theorem inv_run (t : List Event) : Inv (run init t) :=
  inv_run_from t init inv_init

theorem computeActive_vc_pref {s : CState} {a : Nat} (ho : s.vcIsOwner = true)
    (hv : s.vcSession = some a) : computeActive s = some a := by
  unfold computeActive
  rw [if_pos ho, hv]

theorem computeActive_vc_fallback {s : CState} (ho : s.vcIsOwner = true)
    (hv : s.vcSession = none) : computeActive s = s.primarySession := by
  unfold computeActive
  rw [if_pos ho, hv]

theorem computeActive_primary_pref {s : CState} {b : Nat}
    (ho : ¬ s.vcIsOwner = true) (hp : s.primarySession = some b) :
    computeActive s = some b := by
  unfold computeActive
  rw [if_neg ho, hp]

theorem computeActive_primary_fallback {s : CState}
    (ho : ¬ s.vcIsOwner = true) (hp : s.primarySession = none) :
    computeActive s = s.vcSession := by
  unfold computeActive
  rw [if_neg ho, hp]

theorem exactly_one_of_inv (s : CState) (hS : SessionsOk s) (hA : ActiveOk s)
    (h : s.vcSession.isSome = true ∨ s.primarySession.isSome = true) :
    ExactlyOneActive s := by
  unfold ExactlyOneActive ActiveIsVc ActiveIsPrimary
  by_cases ho : s.vcIsOwner = true
  · cases hv : s.vcSession with
    | some a =>
      have hC : s.activeClient = some a := hA.trans (computeActive_vc_pref ho hv)
      left
      refine ⟨⟨by rw [hC]; rfl, by rw [hC]⟩, ?_⟩
      rintro ⟨-, hpa⟩
      rw [hC] at hpa
      exact hS.2.2 a a hv hpa.symm rfl
    | none =>
      cases hp : s.primarySession with
      | some b =>
        have hC : s.activeClient = some b := by
          rw [hA, computeActive_vc_fallback ho hv, hp]
        right
        refine ⟨⟨by rw [hC]; rfl, by rw [hC]⟩, ?_⟩
        rintro ⟨-, hvb⟩
        rw [hC] at hvb
        cases hvb
      | none =>
        rcases h with h | h
        · rw [hv] at h
          cases h
        · rw [hp] at h
          cases h
  · cases hp : s.primarySession with
    | some b =>
      have hC : s.activeClient = some b :=
        hA.trans (computeActive_primary_pref ho hp)
      right
      refine ⟨⟨by rw [hC]; rfl, by rw [hC]⟩, ?_⟩
      rintro ⟨-, hva⟩
      rw [hC] at hva
      exact hS.2.2 b b hva.symm hp rfl
    | none =>
      cases hv : s.vcSession with
      | some a =>
        have hC : s.activeClient = some a := by
          rw [hA, computeActive_primary_fallback ho hp, hv]
        left
        refine ⟨⟨by rw [hC]; rfl, by rw [hC]⟩, ?_⟩
        rintro ⟨-, hpb⟩
        rw [hC] at hpb
        cases hpb
      | none =>
        rcases h with h | h
        · rw [hv] at h
          cases h
        · rw [hp] at h
          cases h

/-- C2 counterexample: the initial state is reachable (empty trace), has
neither a virtual-console nor a primary session, and no active client —
so it is not the case that exactly one of the two sessions is active at
every reachable state. -/
theorem not_exactly_one_active_initially :
    ¬ ExactlyOneActive (run init []) := by
  decide

/-- C2 (amended): at every reachable state the cached active client
equals the deterministic recomputation from (vc session, primary session,
ownership flag) — it is never independent state — and whenever at least
one of the two sessions is connected, exactly one of them is active (the
preferred one per the flag, else whichever is connected).  With no
session connected, no session is active. -/
theorem active_client_deterministic (t : List Event) :
    ActiveOk (run init t) ∧
    ((run init t).vcSession.isSome = true ∨
      (run init t).primarySession.isSome = true →
      ExactlyOneActive (run init t)) := by
  obtain ⟨hK, hS, hA, hP⟩ := inv_run t
  exact ⟨hA, fun h => exactly_one_of_inv (run init t) hS hA h⟩

/-- Witness for C2 (amended): after registering a primary session it is
the unique active one. -/
theorem active_client_deterministic_witness :
    ExactlyOneActive (run init [Event.registerSession Role.primary]) :=
  (active_client_deterministic [Event.registerSession Role.primary]).2
    (by decide)

theorem pendingOk_get (t : List Event) (did : Nat) (d : DisplayState)
    (h : getDisplay (run init t) did = some d) :
    d.pendingLayerChange = d.forwarded.isSome := by
  obtain ⟨hK, hS, hA, hP⟩ := inv_run t
  unfold getDisplay lookupD at h
  cases hf : (run init t).displays.find? (fun p => p.1 == did) with
  | none =>
    rw [hf] at h
    cases h
  | some p =>
    rw [hf] at h
    cases h
    exact hP p (List.mem_of_find?_eq_some hf)

/-- C3: at every reachable state a display's pending_layer_change flag is
set exactly while a forwarded layer set is awaiting confirmation; a vsync
whose handles do not equal the image sequence of the layer set most
recently forwarded (including any vsync for a display with nothing in
flight) is ignored outright — state and effects unchanged — and a vsync
whose handles do equal it commits that set and clears the flag (here in
the no-deferred case; the deferred case re-enters pending, see the C4
theorem). -/
theorem vsync_confirms_only_matching (t : List Event) (did : Nat)
    (handles : List Nat) (d : DisplayState) :
    (getDisplay (run init t) did = some d →
      d.pendingLayerChange = d.forwarded.isSome) ∧
    ((∀ d2, getDisplay (run init t) did = some d2 →
        vsyncMatches d2 handles = false) →
      step (run init t) (Event.vsync did handles) = (run init t, [])) ∧
    (getDisplay (run init t) did = some d →
      ∀ f, d.forwarded = some f → handles = f.layers.map Layer.image →
        d.delayedApply = none →
        getDisplay (step (run init t) (Event.vsync did handles)).1 did =
          some { images := f.layers, layerCount := f.layers.length,
                 pendingLayerChange := false, forwarded := none,
                 delayedApply := none }) := by
  obtain ⟨hK, hS, hA, hP⟩ := inv_run t
  refine ⟨pendingOk_get t did d, ?_, ?_⟩
  · intro hno
    have hall : ∀ p ∈ (run init t).displays,
        vsyncDisp did handles p.1 p.2 = (p.2, none) := by
      intro p hp
      by_cases hk : p.1 = did
      · have hg : getDisplay (run init t) did = some p.2 := by
          rw [← hk]
          exact lookupD_eq_of_mem_nodup hK hp
        have hm := hno p.2 hg
        unfold vsyncMatches at hm
        unfold vsyncDisp
        rw [if_pos hk]
        cases hf : p.2.forwarded with
        | none => rfl
        | some f =>
          rw [hf] at hm
          dsimp only
          rw [if_neg (beq_eq_false_iff_ne.mp hm)]
      · unfold vsyncDisp
        rw [if_neg hk]
    dsimp only [step]
    rw [mapDisplays_eq_self _ _ hall]
  · intro hd f hf hh hdel
    dsimp only [step]
    unfold getDisplay
    dsimp only
    rw [lookupD_mapDisplays]
    unfold getDisplay at hd
    rw [hd]
    dsimp only [Option.map]
    unfold vsyncDisp
    rw [if_pos rfl, hf]
    dsimp only
    rw [if_pos hh, hdel]

/-- Witness for C3: after pendingTrace display 1 has [7] in flight; its
flag matches, a vsync reporting [9] is ignored, and a vsync reporting [7]
commits [7] and clears the flag. -/
theorem vsync_confirms_only_matching_witness :
    pendingDisp.pendingLayerChange = pendingDisp.forwarded.isSome ∧
    step (run init pendingTrace) (Event.vsync 1 [9]) =
      (run init pendingTrace, []) ∧
    getDisplay (step (run init pendingTrace) (Event.vsync 1 [7])).1 1 =
      some { images := [⟨7, 0⟩], layerCount := 1,
             pendingLayerChange := false, forwarded := none,
             delayedApply := none } := by
  refine ⟨(vsync_confirms_only_matching pendingTrace 1 [9] pendingDisp).1
      (by decide), ?_, ?_⟩
  · refine (vsync_confirms_only_matching pendingTrace 1 [9] pendingDisp).2.1 ?_
    intro d2 hd2
    have h0 : getDisplay (run init pendingTrace) 1 = some pendingDisp := by
      decide
    rw [h0] at hd2
    cases hd2
    decide
  · exact (vsync_confirms_only_matching pendingTrace 1 [7] pendingDisp).2.2
      (by decide) ⟨0, [⟨7, 0⟩]⟩ (by decide) (by decide) (by decide)

theorem purgeDisp_images (sid key : Nat) (d : DisplayState) :
    ((purgeDisp sid key d).1).images = d.images := by
  show (purgeDelayed sid (purgeForwarded sid d)).images = d.images
  rw [purgeDelayed_images, purgeForwarded_images]

theorem purged_step (s : CState) (e : Event) (sid : Nat)
    (hI : Inv s) (hPu : Purged sid s) : Purged sid (step s e).1 := by
  obtain ⟨hK, hS, hA, hP⟩ := hI
  obtain ⟨h1, h2, h3, h4, h5⟩ := hPu
  cases e with
  | displaysAdded ids =>
    refine ⟨h1, h2, h3, h4, ?_⟩
    intro p hp
    rcases mem_foldl_addDisplay ids s.displays p hp with hm | hm
    · exact h5 p hm
    · rw [hm]
      constructor
      · intro f hf
        cases hf
      · intro c hc
        cases hc
  | displaysRemoved ids =>
    refine ⟨h1, h2, h3, h4, ?_⟩
    intro p hp
    exact h5 p (List.mem_of_mem_filter hp)
  | setVcOwner flag =>
    refine ⟨h1, h2, h3, ?_, h5⟩
    exact computeActive_ne _ sid h2 h3
  | registerSession role =>
    cases role with
    | vc =>
      simp only [step]
      split
      · exact ⟨h1, h2, h3, h4, h5⟩
      · refine ⟨Nat.lt_succ_of_lt h1, ?_, h3, ?_, h5⟩
        · intro he
          cases he
          exact Nat.lt_irrefl _ h1
        · refine computeActive_ne _ sid ?_ h3
          intro he
          cases he
          exact Nat.lt_irrefl _ h1
    | primary =>
      simp only [step]
      split
      · exact ⟨h1, h2, h3, h4, h5⟩
      · refine ⟨Nat.lt_succ_of_lt h1, h2, ?_, ?_, h5⟩
        · intro he
          cases he
          exact Nat.lt_irrefl _ h1
        · refine computeActive_ne _ sid h2 ?_
          intro he
          cases he
          exact Nat.lt_irrefl _ h1
  | sessionDead sid2 =>
    dsimp only [step, recomputeActive]
    have hvc : (if s.vcSession = some sid2 then none else s.vcSession) ≠
        some sid := by
      split
      · intro he
        cases he
      · exact h2
    have hpr : (if s.primarySession = some sid2 then none
        else s.primarySession) ≠ some sid := by
      split
      · intro he
        cases he
      · exact h3
    refine ⟨h1, hvc, hpr, computeActive_ne _ sid hvc hpr, ?_⟩
    intro p hp
    obtain ⟨q, hq, rfl⟩ := mem_mapDisplays hp
    constructor
    · intro f hf
      have hf2 : (purgeForwarded sid2 q.2).forwarded = some f := by
        rw [← purgeDelayed_forwarded sid2 (purgeForwarded sid2 q.2)]
        exact hf
      exact (h5 q hq).1 f (purgeForwarded_spec sid2 q.2 f hf2).1
    · intro c hc
      have hc2 := purgeDelayed_spec sid2 (purgeForwarded sid2 q.2) c hc
      rw [purgeForwarded_delayed] at hc2
      exact (h5 q hq).2 c hc2.1
  | applyConfig sid2 stamp cfg =>
    simp only [step]
    split
    · rename_i hacc
      have hsid2 : sid2 ≠ sid := by
        intro he
        rw [he] at hacc
        exact h4 hacc.1
      refine ⟨h1, h2, h3, h4, ?_⟩
      intro p hp
      obtain ⟨q, hq, rfl⟩ := mem_mapDisplays hp
      rcases applyDisp_cases sid2 cfg q.1 q.2 with
        ⟨c, _, _, _, he⟩ | ⟨c, _, _, _, he⟩ | ⟨c, _, _, he⟩ | ⟨_, he⟩
      · rw [he]
        refine ⟨(h5 q hq).1, ?_⟩
        intro c2 hc2
        cases hc2
        exact hsid2
      · rw [he]
        refine ⟨?_, (h5 q hq).2⟩
        intro f hf
        cases hf
        exact hsid2
      · rw [he]
        exact h5 q hq
      · rw [he]
        exact h5 q hq
    · exact ⟨h1, h2, h3, h4, h5⟩
  | vsync did handles =>
    dsimp only [step]
    refine ⟨h1, h2, h3, h4, ?_⟩
    intro p hp
    obtain ⟨q, hq, rfl⟩ := mem_mapDisplays hp
    rcases vsyncDisp_cases did handles q.1 q.2 with
      ⟨_, he⟩ | ⟨_, _, he⟩ | ⟨f, _, _, _, he⟩ |
      ⟨f, dc, _, _, _, hdc, he⟩ | ⟨f, _, _, _, _, he⟩
    · rw [he]
      exact h5 q hq
    · rw [he]
      exact h5 q hq
    · rw [he]
      exact h5 q hq
    · rw [he]
      refine ⟨?_, ?_⟩
      · intro f2 hf2
        cases hf2
        exact (h5 q hq).2 dc hdc
      · intro c2 hc2
        cases hc2
    · rw [he]
      constructor
      · intro f2 hf2
        cases hf2
      · intro c2 hc2
        cases hc2

theorem purged_after_death (s : CState) (sid : Nat) (_hI : Inv s)
    (hlt : sid < s.nextSid) :
    Purged sid (step s (Event.sessionDead sid)).1 := by
  dsimp only [step, recomputeActive]
  have hvc : (if s.vcSession = some sid then none else s.vcSession) ≠
      some sid := by
    split
    · intro he
      cases he
    · rename_i hne
      exact hne
  have hpr : (if s.primarySession = some sid then none
      else s.primarySession) ≠ some sid := by
    split
    · intro he
      cases he
    · rename_i hne
      exact hne
  refine ⟨hlt, hvc, hpr, computeActive_ne _ sid hvc hpr, ?_⟩
  intro p hp
  obtain ⟨q, hq, rfl⟩ := mem_mapDisplays hp
  constructor
  · intro f hf
    have hf2 : (purgeForwarded sid q.2).forwarded = some f := by
      rw [← purgeDelayed_forwarded sid (purgeForwarded sid q.2)]
      exact hf
    exact (purgeForwarded_spec sid q.2 f hf2).2
  · intro c hc
    exact (purgeDelayed_spec sid (purgeForwarded sid q.2) c hc).2

theorem inv_purged_run (sid : Nat) (t : List Event) :
    ∀ s : CState, Inv s → Purged sid s →
      Inv (run s t) ∧ Purged sid (run s t) := by
  induction t with
  | nil => exact fun s hI hPu => ⟨hI, hPu⟩
  | cons e t ih =>
    exact fun s hI hPu =>
      ih (step s e).1 (inv_step s e hI) (purged_step s e sid hI hPu)

/-- C7: when a session dies, every pending (forwarded-but-unconfirmed)
and deferred configuration it owns is purged from every display while the
committed image lists are left exactly as last confirmed, and along every
later event sequence no display ever again holds a forwarded or deferred
configuration owned by the dead session — so no configuration of the dead
session can ever complete. -/
theorem dead_session_configs_purged_forever (t : List Event) (sid : Nat)
    (h : (run init t).vcSession = some sid ∨
      (run init t).primarySession = some sid) :
    ((step (run init t) (Event.sessionDead sid)).1.displays.map
        (fun p => (p.1, p.2.images)) =
      (run init t).displays.map (fun p => (p.1, p.2.images))) ∧
    (∀ t2, NotOwned sid
      (run (step (run init t) (Event.sessionDead sid)).1 t2)) := by
  have hI := inv_run t
  have hlt : sid < (run init t).nextSid := by
    rcases h with h | h
    · exact hI.2.1.1 sid h
    · exact hI.2.1.2.1 sid h
  constructor
  · dsimp only [step, recomputeActive]
    rw [mapDisplays_fst, List.map_map]
    apply List.map_congr_left
    intro p _
    show (p.1, ((purgeDisp sid p.1 p.2).1).images) = (p.1, p.2.images)
    rw [purgeDisp_images]
  · intro t2
    exact (inv_purged_run sid t2 (step (run init t) (Event.sessionDead sid)).1
      (inv_step _ _ hI) (purged_after_death _ sid hI hlt)).2.2.2.2.2

theorem hist_step (did : Nat) (s : CState) (e : Event)
    (g : Option DeferredConfig) (hI : Inv s)
    (hH : ∀ d cfg, getDisplay s did = some d → d.delayedApply = some cfg →
      g = some cfg) :
    ∀ d cfg, getDisplay (step s e).1 did = some d →
      d.delayedApply = some cfg → deferHist did s e g = some cfg := by
  obtain ⟨hK, hS, hA, hP⟩ := hI
  cases e with
  | displaysAdded ids =>
    intro d cfg hd hdel
    show g = some cfg
    unfold getDisplay at hd
    dsimp only [step] at hd
    rcases lookupD_foldl_addDisplay did ids s.displays with h | h | h
    · exact hH d cfg (h.symm.trans hd) hdel
    · rw [h] at hd
      cases hd
      cases hdel
    · rw [h] at hd
      cases hd
  | displaysRemoved ids =>
    intro d cfg hd hdel
    show g = some cfg
    unfold getDisplay at hd
    dsimp only [step] at hd
    exact hH d cfg (lookupD_filter s.displays _ hK did d hd) hdel
  | setVcOwner flag =>
    intro d cfg hd hdel
    exact hH d cfg hd hdel
  | registerSession role =>
    intro d cfg hd hdel
    show g = some cfg
    cases role with
    | vc =>
      simp only [step] at hd
      split at hd
      · exact hH d cfg hd hdel
      · exact hH d cfg hd hdel
    | primary =>
      simp only [step] at hd
      split at hd
      · exact hH d cfg hd hdel
      · exact hH d cfg hd hdel
  | sessionDead sid2 =>
    intro d cfg hd hdel
    show g = some cfg
    unfold getDisplay at hd
    dsimp only [step, recomputeActive] at hd
    rw [lookupD_mapDisplays] at hd
    cases hq : lookupD s.displays did with
    | none =>
      rw [hq] at hd
      cases hd
    | some q =>
      rw [hq] at hd
      cases hd
      have h2 := purgeDelayed_spec sid2 (purgeForwarded sid2 q) cfg hdel
      rw [purgeForwarded_delayed] at h2
      exact hH q cfg hq h2.1
  | vsync did2 handles =>
    intro d cfg hd hdel
    show g = some cfg
    unfold getDisplay at hd
    dsimp only [step] at hd
    rw [lookupD_mapDisplays] at hd
    cases hq : lookupD s.displays did with
    | none =>
      rw [hq] at hd
      cases hd
    | some q =>
      rw [hq] at hd
      cases hd
      dsimp only at hdel
      rcases vsyncDisp_cases did2 handles did q with
        ⟨_, he⟩ | ⟨_, _, he⟩ | ⟨f, _, _, _, he⟩ |
        ⟨f, dc, _, _, _, _, he⟩ | ⟨f, _, _, _, _, he⟩
      · rw [he] at hdel
        exact hH q cfg hq hdel
      · rw [he] at hdel
        exact hH q cfg hq hdel
      · rw [he] at hdel
        exact hH q cfg hq hdel
      · rw [he] at hdel
        cases hdel
      · rw [he] at hdel
        cases hdel
  | applyConfig sid2 stamp cfg2 =>
    intro d cfg hd hdel
    unfold getDisplay at hd
    simp only [step] at hd
    simp only [deferHist]
    by_cases hacc : s.activeClient = some sid2 ∧ s.appliedStamp < stamp
    · rw [if_pos hacc] at hd
      rw [if_pos hacc]
      dsimp only at hd
      rw [lookupD_mapDisplays] at hd
      cases hq : lookupD s.displays did with
      | none =>
        rw [hq] at hd
        cases hd
      | some q =>
        rw [hq] at hd
        cases hd
        dsimp only at hdel
        have hgq : getDisplay s did = some q := hq
        rcases applyDisp_cases sid2 cfg2 did q with
          ⟨c, hfc, hch, hpend, he⟩ | ⟨c, hfc, hch, hpend, he⟩ |
          ⟨c, hfc, hch, he⟩ | ⟨hfc, he⟩
        · rw [he] at hdel
          unfold getDisplay
          rw [hq, hfc]
          dsimp only
          rw [if_pos ⟨hch, hpend⟩]
          exact hdel
        · rw [he] at hdel
          unfold getDisplay
          rw [hq, hfc]
          dsimp only
          rw [if_neg ?hc2]
          case hc2 =>
            rintro ⟨-, hp2⟩
            rw [hpend] at hp2
            cases hp2
          exact hH q cfg hgq hdel
        · rw [he] at hdel
          unfold getDisplay
          rw [hq, hfc]
          dsimp only
          rw [if_neg ?hc3]
          case hc3 =>
            rintro ⟨hc2, -⟩
            rw [hch] at hc2
            cases hc2
          exact hH q cfg hgq hdel
        · rw [he] at hdel
          unfold getDisplay
          rw [hq, hfc]
          exact hH q cfg hgq hdel
    · rw [if_neg hacc] at hd
      rw [if_neg hacc]
      exact hH d cfg hd hdel

theorem hist_run (did : Nat) (t : List Event) :
    ∀ (s : CState) (g : Option DeferredConfig), Inv s →
      (∀ d cfg, getDisplay s did = some d → d.delayedApply = some cfg →
        g = some cfg) →
      ∀ d cfg, getDisplay (runHist did s g t).1 did = some d →
        d.delayedApply = some cfg → (runHist did s g t).2 = some cfg := by
  induction t with
  | nil => exact fun s g _ hH => hH
  | cons e t ih =>
    exact fun s g hI hH =>
      ih (step s e).1 (deferHist did s e g) (inv_step s e hI)
        (hist_step did s e g hI hH)

theorem runHist_fst (did : Nat) :
    ∀ (t : List Event) (s : CState) (g : Option DeferredConfig),
      (runHist did s g t).1 = run s t
  | [], _, _ => rfl
  | e :: t, s, g => runHist_fst did t (step s e).1 (deferHist did s e g)

/-- C5: whenever a display's delayed_apply slot is non-empty at a
reachable state, it holds exactly the most recent configuration submitted
for that display while its layer change was still pending (the
deferred-apply history of the trace); since the slot is a single optional
value, any earlier deferred configuration has been overwritten, never
queued. -/
theorem delayed_apply_most_recent (t : List Event) (did : Nat)
    (d : DisplayState) (cfg : DeferredConfig)
    (hd : getDisplay (run init t) did = some d)
    (hdel : d.delayedApply = some cfg) :
    (runHist did init none t).2 = some cfg := by
  have h0 : ∀ d2 cfg2, getDisplay init did = some d2 →
      d2.delayedApply = some cfg2 →
      (none : Option DeferredConfig) = some cfg2 := by
    intro d2 cfg2 hb _
    cases hb
  refine hist_run did t init none inv_init h0 d cfg ?_ hdel
  rw [runHist_fst]
  exact hd

/-- Witness for C5: after deferTrace, display 1's slot holds the [8]
configuration, and it is exactly the trace's most recent
submitted-while-pending configuration. -/
theorem delayed_apply_most_recent_witness :
    getDisplay (run init deferTrace) 1 = some deferDisp ∧
    deferDisp.delayedApply = some ⟨0, [⟨8, 0⟩]⟩ ∧
    (runHist 1 init none deferTrace).2 = some ⟨0, [⟨8, 0⟩]⟩ :=
  ⟨by decide, by decide,
   delayed_apply_most_recent deferTrace 1 deferDisp ⟨0, [⟨8, 0⟩]⟩
     (by decide) (by decide)⟩

theorem filterMap_eq_single {α β : Type} [DecidableEq α] :
    ∀ (l : List α) (f : α → Option β) (a : α) (b : β),
      a ∈ l → f a = some b → (∀ x ∈ l, x ≠ a → f x = none) →
      l.count a = 1 → l.filterMap f = [b]
  | [], _, _, _, ha, _, _, _ => absurd ha (List.not_mem_nil _)
  | x :: l, f, a, b, ha, hfa, hother, hcount => by
    by_cases hxa : x = a
    · subst hxa
      have hc : l.count x = 0 := by
        rw [List.count_cons_self] at hcount
        omega
      have hnx : x ∉ l := List.count_eq_zero.mp hc
      have hnil : l.filterMap f = [] := by
        rw [List.filterMap_eq_nil_iff]
        intro y hy
        exact hother y (List.mem_cons_of_mem x hy) fun he => hnx (he ▸ hy)
      rw [List.filterMap_cons, hfa]
      dsimp only
      rw [hnil]
    · have hfx : f x = none := hother x (List.mem_cons_self x l) hxa
      have ha2 : a ∈ l := by
        rcases List.mem_cons.mp ha with he | hm
        · exact absurd he.symm hxa
        · exact hm
      have hcount2 : l.count a = 1 := by
        rw [List.count_cons, beq_eq_false_iff_ne.mpr hxa] at hcount
        simpa using hcount
      have := filterMap_eq_single l f a b ha2 hfa
        (fun y hy hya => hother y (List.mem_cons_of_mem x hy) hya) hcount2
      rw [List.filterMap_cons, hfx]
      dsimp only
      rw [this]

/-- C4 counterexample: along supersedeTrace the [8] configuration is
submitted by an accepted ApplyConfig (the applied stamp advances to
2^32+1) while display 1's layer change is still pending, but the later
[9] submission supersedes it before the confirming vsync: over the whole
trace [8] is never forwarded to hardware — it is dropped, not applied
exactly once. -/
theorem superseded_deferred_config_dropped :
    getDisplay (run init pendingTrace) 1 = some pendingDisp ∧
    pendingDisp.pendingLayerChange = true ∧
    (run init deferTrace).appliedStamp = 4294967297 ∧
    getDisplay (run init deferTrace) 1 = some deferDisp ∧
    deferDisp.delayedApply = some ⟨0, [⟨8, 0⟩]⟩ ∧
    (runOut init supersedeTrace).2.count (Output.forward 1 [⟨8, 0⟩]) = 0 ∧
    (runOut init supersedeTrace).2 =
      [Output.forward 1 [⟨7, 0⟩], Output.forward 1 [⟨9, 0⟩]] := by
  decide

/-- C4 (amended): the configuration sitting in delayed_apply when the
in-flight vsync confirms — the most recent one submitted while the layer
change was pending — takes effect exactly once: that vsync commits the
confirmed set, emits exactly one hardware forward of the deferred layer
set, consumes the slot, and re-enters the pending state with the deferred
configuration in flight.  A deferred configuration superseded by a later
submission before the vsync is discarded (see the counterexample). -/
theorem deferred_config_forwarded_once_on_confirm (t : List Event)
    (did : Nat) (handles : List Nat) (d : DisplayState)
    (f dc : DeferredConfig)
    (hd : getDisplay (run init t) did = some d)
    (hf : d.forwarded = some f)
    (hh : handles = f.layers.map Layer.image)
    (hdc : d.delayedApply = some dc) :
    (step (run init t) (Event.vsync did handles)).2 =
      [Output.forward did dc.layers] ∧
    getDisplay (step (run init t) (Event.vsync did handles)).1 did =
      some { images := f.layers, layerCount := f.layers.length,
             pendingLayerChange := true, forwarded := some dc,
             delayedApply := none } := by
  obtain ⟨hK, hS, hA, hP⟩ := inv_run t
  constructor
  · dsimp only [step]
    rw [mapDisplays_snd]
    unfold getDisplay lookupD at hd
    cases hfind : (run init t).displays.find? (fun p => p.1 == did) with
    | none =>
      rw [hfind] at hd
      cases hd
    | some p =>
      rw [hfind] at hd
      cases hd
      have hp1 : p.1 = did := by simpa using List.find?_some hfind
      have hpm : p ∈ (run init t).displays := List.mem_of_find?_eq_some hfind
      have hnd : (run init t).displays.Nodup := List.Nodup.of_map Prod.fst hK
      refine filterMap_eq_single (run init t).displays _ p
        (Output.forward did dc.layers) hpm ?_ ?_
        (List.count_eq_one_of_mem hnd hpm)
      · unfold vsyncDisp
        rw [if_pos hp1, hf]
        dsimp only
        rw [if_pos hh, hdc]
      · intro x hx hxp
        by_cases hk : x.1 = did
        · exfalso
          have h1 := find?_eq_of_mem_nodup (run init t).displays hK x hx
          rw [hk, hfind] at h1
          cases h1
          exact hxp rfl
        · unfold vsyncDisp
          rw [if_neg hk]
  · dsimp only [step]
    unfold getDisplay
    dsimp only
    rw [lookupD_mapDisplays]
    unfold getDisplay at hd
    rw [hd]
    dsimp only [Option.map]
    unfold vsyncDisp
    rw [if_pos rfl, hf]
    dsimp only
    rw [if_pos hh, hdc]

/-- Witness for C4 (amended): after deferTrace, the vsync reporting the
in-flight [7] commits it, forwards the deferred [8] exactly once and
re-enters pending. -/
theorem deferred_config_forwarded_once_witness :
    (step (run init deferTrace) (Event.vsync 1 [7])).2 =
      [Output.forward 1 [⟨8, 0⟩]] ∧
    getDisplay (step (run init deferTrace) (Event.vsync 1 [7])).1 1 =
      some { images := [⟨7, 0⟩], layerCount := 1,
             pendingLayerChange := true, forwarded := some ⟨0, [⟨8, 0⟩]⟩,
             delayedApply := none } :=
  deferred_config_forwarded_once_on_confirm deferTrace 1 [7] deferDisp
    ⟨0, [⟨7, 0⟩]⟩ ⟨0, [⟨8, 0⟩]⟩ (by decide) (by decide) (by decide) (by decide)

/-- Witness for C7: killing the only (primary, active) session right
after it forwarded a configuration purges that configuration, keeps the
committed (empty) image list, and no later event re-creates anything it
owns. -/
theorem dead_session_configs_purged_witness :
    ((run init pendingTrace).vcSession = some 0 ∨
      (run init pendingTrace).primarySession = some 0) ∧
    ((step (run init pendingTrace) (Event.sessionDead 0)).1.displays.map
        (fun p => (p.1, p.2.images)) =
      (run init pendingTrace).displays.map (fun p => (p.1, p.2.images))) ∧
    NotOwned 0 (run (step (run init pendingTrace) (Event.sessionDead 0)).1
      [Event.vsync 1 [7]]) := by
  have h0 : (run init pendingTrace).vcSession = some 0 ∨
      (run init pendingTrace).primarySession = some 0 := Or.inr (by decide)
  have hmain := dead_session_configs_purged_forever pendingTrace 0 h0
  exact ⟨h0, hmain.1, hmain.2 [Event.vsync 1 [7]]⟩

end DisplayCore
